import Mathlib

/-!
# Verification of the gomap mailbox synchronization engine

A shallow embedding, in Lean 4, of the core of the `gomap` repository
(state store, IMAP search criteria construction, mailbox filter, the
per-mailbox IMAP->IMAP sync worker, and the mbox->IMAP copy pipeline),
together with theorems settling the specification's claims about it.

Conventions of the embedding:
* Go `uint32` / `int64` values are modelled as `Nat` / `Int`; wrap-around
  is written explicitly (`% 4294967296`) at the one place the Go code
  performs 32-bit arithmetic.
* Go maps (`map[string]uint32`, `map[string]int64`) are modelled as
  association lists with first-match lookup; Go map updates are in-place
  key replacement.
* External effects (IMAP server responses, file positions, the wall
  clock, the RFC 822 date parser) are inputs to the embedded functions,
  so every run of the engine is a pure function of its environment.
* Fallible operations return `Option`; `none` plays the role of Go `nil`
  errors where a result is an error slot, and of a missing map key for
  lookups.
-/

namespace Gomap

/-! ## Association lists (the model of Go maps) -/

/-- First-match lookup in an association list; `none` models `ok == false`
for a Go map read. -/
def alookup {α : Type} : List (String × α) → String → Option α
  | [], _ => none
  | (k, v) :: rest, key => if k = key then some v else alookup rest key

/-- In-place update of an association list: replaces the first binding of
the key, or appends a new binding.  Models `m[k] = v` on a Go map. -/
def alistSet {α : Type} : List (String × α) → String → α → List (String × α)
  | [], key, v => [(key, v)]
  | (k, w) :: rest, key, v =>
      if k = key then (key, v) :: rest else (k, w) :: alistSet rest key v

theorem alookup_alistSet_self {α : Type} (l : List (String × α)) (k : String) (v : α) :
    alookup (alistSet l k v) k = some v := by
  induction l with
  | nil => simp [alistSet, alookup]
  | cons p rest ih =>
      obtain ⟨k', w⟩ := p
      by_cases h : k' = k
      · simp [alistSet, h, alookup]
      · simp [alistSet, h, alookup, ih]

theorem alookup_alistSet_ne {α : Type} (l : List (String × α)) (k k' : String) (v : α)
    (h : k' ≠ k) : alookup (alistSet l k v) k' = alookup l k' := by
  have hk' : k ≠ k' := fun hk => h hk.symm
  induction l with
  | nil => simp [alistSet, alookup, hk']
  | cons p rest ih =>
      obtain ⟨k₀, w⟩ := p
      by_cases hk : k₀ = k
      · subst hk
        simp [alistSet, alookup, hk']
      · simp [alistSet, hk, alookup, ih]

/-! ## State store

Embeds the `state` package: a record of two maps persisted as JSON.
`MailMax` is `mail_max_uid` (`map[string]uint32`), `MboxOffsets` is
`mbox_offsets` (`map[string]int64`). -/

structure State where
  mailMax : List (String × Nat)
  mboxOffsets : List (String × Int)
deriving DecidableEq, Repr

/-- `GetMaxUID`: mutex-guarded read; a missing key yields the Go zero
value `0`. -/
def State.getMaxUID (s : State) (mailbox : String) : Nat :=
  (alookup s.mailMax mailbox).getD 0

/-- `SetMaxUID`: writes `uid` only when the key is absent or `uid` exceeds
the current value (`!ok || uid > cur`). -/
def State.setMaxUID (s : State) (mailbox : String) (uid : Nat) : State :=
  match alookup s.mailMax mailbox with
  | none => { s with mailMax := alistSet s.mailMax mailbox uid }
  | some cur =>
      if uid > cur then { s with mailMax := alistSet s.mailMax mailbox uid } else s

/-- `GetMboxOffset`: read with Go zero value `0` for a missing key. -/
def State.getMboxOffset (s : State) (key : String) : Int :=
  (alookup s.mboxOffsets key).getD 0

/-- `SetMboxOffset`: unconditional overwrite (callers ensure monotonicity). -/
def State.setMboxOffset (s : State) (key : String) (off : Int) : State :=
  { s with mboxOffsets := alistSet s.mboxOffsets key off }

/-- One `SetMaxUID` call per list element, in order. -/
def applySetMaxUIDs (s : State) (ops : List (String × Nat)) : State :=
  ops.foldl (fun st p => st.setMaxUID p.1 p.2) s

theorem getMaxUID_setMaxUID_self (s : State) (m : String) (u : Nat) :
    (s.setMaxUID m u).getMaxUID m = max (s.getMaxUID m) u := by
  unfold State.setMaxUID State.getMaxUID
  cases h : alookup s.mailMax m with
  | none => simp [h, alookup_alistSet_self]
  | some cur =>
      by_cases hu : u > cur
      · simp [h, hu, alookup_alistSet_self, Nat.max_eq_right (Nat.le_of_lt hu)]
      · simp [h, hu, Nat.max_eq_left (Nat.le_of_not_lt hu)]

theorem getMaxUID_setMaxUID_other (s : State) (m m' : String) (u : Nat) (h : m ≠ m') :
    (s.setMaxUID m' u).getMaxUID m = s.getMaxUID m := by
  unfold State.setMaxUID State.getMaxUID
  cases hl : alookup s.mailMax m' with
  | none => simp [alookup_alistSet_ne _ _ _ _ h]
  | some cur =>
      by_cases hu : u > cur
      · simp [hu, alookup_alistSet_ne _ _ _ _ h]
      · simp [hu]

theorem getMaxUID_setMaxUID_le (s : State) (m m' : String) (u : Nat) :
    s.getMaxUID m ≤ (s.setMaxUID m' u).getMaxUID m := by
  by_cases h : m = m'
  · subst h
    rw [getMaxUID_setMaxUID_self]
    exact Nat.le_max_left _ _
  · rw [getMaxUID_setMaxUID_other s m m' u h]

theorem getMaxUID_applySetMaxUIDs_le (s : State) (m : String) (ops : List (String × Nat)) :
    s.getMaxUID m ≤ (applySetMaxUIDs s ops).getMaxUID m := by
  induction ops generalizing s with
  | nil => simp [applySetMaxUIDs]
  | cons p rest ih =>
      calc s.getMaxUID m ≤ (s.setMaxUID p.1 p.2).getMaxUID m :=
            getMaxUID_setMaxUID_le s m p.1 p.2
        _ ≤ (applySetMaxUIDs (s.setMaxUID p.1 p.2) rest).getMaxUID m := ih _
        _ = (applySetMaxUIDs s (p :: rest)).getMaxUID m := rfl

/-- C2: `SetMaxUID(m, u)` stores `max(existing, u)`, and the stored
`mail_max_uid[m]` never decreases under any sequence of `SetMaxUID`
calls (on any mailboxes). -/
theorem setMaxUID_is_max_and_monotone :
    (∀ (s : State) (m : String) (u : Nat),
        (s.setMaxUID m u).getMaxUID m = max (s.getMaxUID m) u) ∧
    (∀ (s : State) (m : String) (ops : List (String × Nat)),
        s.getMaxUID m ≤ (applySetMaxUIDs s ops).getMaxUID m) :=
  ⟨getMaxUID_setMaxUID_self, getMaxUID_applySetMaxUIDs_le⟩

/-! ## JSON persistence of the state (`Save` / `Load`)

`Save` serializes the two maps with `json.MarshalIndent` and writes the
file (a no-op when the path is empty); `Load` parses the file with
`json.Unmarshal` into a freshly initialized state, so missing keys leave
the empty maps in place.  The embedding works at the level of JSON
values: a `Save` to a non-empty path produces the JSON document below,
and `Load` decodes such a document.  (Go writes the object keys of a map
in sorted order; since `Unmarshal` is insensitive to key order, the
document here lists entries in the map's model order.) -/

inductive Json where
  | num (n : Int)
  | str (s : String)
  | obj (fields : List (String × Json))

/-- `2^32`, the exclusive upper bound of Go's `uint32`. -/
def u32Bound : Nat := 4294967296

/-- `-2^63`, the lower bound of Go's `int64`. -/
def i64Min : Int := -9223372036854775808

/-- `2^63`, the exclusive upper bound of Go's `int64`. -/
def i64Max : Int := 9223372036854775808

/-- The JSON document `Save` marshals: the struct's two exported fields
under their `json:` tags, each map as an object of numeric values. -/
def encodeState (s : State) : Json :=
  .obj [("mail_max_uid", .obj (s.mailMax.map fun p => (p.1, .num (p.2 : Int)))),
        ("mbox_offsets", .obj (s.mboxOffsets.map fun p => (p.1, .num p.2)))]

/-- `Save(path)`: no-op (`none`, nothing written) on the empty path,
otherwise the marshalled document. -/
def stateSave (s : State) (path : String) : Option Json :=
  if path = "" then none else some (encodeState s)

/-- `json.Unmarshal` of a JSON number into a `uint32` field: rejects
anything outside `[0, 2^32)` (and non-numbers). -/
def decodeU32 : Json → Option Nat
  | .num n => if 0 ≤ n ∧ n < (u32Bound : Int) then some n.toNat else none
  | _ => none

/-- `json.Unmarshal` of a JSON number into an `int64` field: rejects
anything outside the `int64` range (and non-numbers). -/
def decodeI64 : Json → Option Int
  | .num n => if i64Min ≤ n ∧ n < i64Max then some n else none
  | _ => none

/-- Decode a JSON object's entries into map bindings, failing if any
value fails to decode. -/
def decodeEntries {α : Type} (dec : Json → Option α) :
    List (String × Json) → Option (List (String × α))
  | [] => some []
  | (k, v) :: rest =>
      match dec v with
      | none => none
      | some a =>
          match decodeEntries dec rest with
          | none => none
          | some l => some ((k, a) :: l)

/-- Decode one map-typed field: present and an object, or absent
(forward-compatible: an absent key leaves the initialized empty map). -/
def decodeMapField {α : Type} (dec : Json → Option α) (fields : List (String × Json))
    (key : String) : Option (List (String × α)) :=
  match alookup fields key with
  | none => some []
  | some (.obj entries) => decodeEntries dec entries
  | some _ => none

/-- `Load` applied to the parsed content of an existing state file:
`json.Unmarshal` into a state initialized with empty maps. -/
def decodeState : Json → Option State
  | .obj fields =>
      match decodeMapField decodeU32 fields "mail_max_uid" with
      | none => none
      | some mm =>
          match decodeMapField decodeI64 fields "mbox_offsets" with
          | none => none
          | some mo => some ⟨mm, mo⟩
  | _ => none

theorem decodeU32_natCast (m : Nat) (h : m < u32Bound) :
    decodeU32 (Json.num (m : Int)) = some m := by
  have h0 : (0 : Int) ≤ (m : Int) := Int.natCast_nonneg _
  have hlt : (m : Int) < (u32Bound : Int) := by exact_mod_cast h
  have htoNat : ((m : Int)).toNat = m := Int.toNat_natCast _
  simp only [decodeU32, h0, hlt, and_self, if_true, htoNat]

theorem decodeI64_inRange (n : Int) (h : i64Min ≤ n ∧ n < i64Max) :
    decodeI64 (Json.num n) = some n := by
  simp only [decodeI64, h.1, h.2, and_self, if_true]

theorem decodeEntries_cons {α : Type} (dec : Json → Option α) (k : String) (v : Json)
    (rest : List (String × Json)) (a : α) (l : List (String × α))
    (h1 : dec v = some a) (h2 : decodeEntries dec rest = some l) :
    decodeEntries dec ((k, v) :: rest) = some ((k, a) :: l) := by
  simp only [decodeEntries, h1, h2]

theorem decodeEntries_encode_u32 (l : List (String × Nat))
    (hb : ∀ p ∈ l, p.2 < u32Bound) :
    decodeEntries decodeU32 (l.map fun p => (p.1, Json.num (p.2 : Int))) = some l := by
  induction l with
  | nil => simp [decodeEntries]
  | cons p rest ih =>
      have hp : p.2 < u32Bound := hb p (List.mem_cons_self p rest)
      have hrest : ∀ q ∈ rest, q.2 < u32Bound := fun q hq => hb q (List.mem_cons_of_mem p hq)
      rw [List.map_cons]
      exact decodeEntries_cons decodeU32 p.1 _ _ p.2 rest (decodeU32_natCast p.2 hp) (ih hrest)

theorem decodeEntries_encode_i64 (l : List (String × Int))
    (hb : ∀ p ∈ l, i64Min ≤ p.2 ∧ p.2 < i64Max) :
    decodeEntries decodeI64 (l.map fun p => (p.1, Json.num p.2)) = some l := by
  induction l with
  | nil => simp [decodeEntries]
  | cons p rest ih =>
      have hp := hb p (List.mem_cons_self p rest)
      have hrest : ∀ q ∈ rest, i64Min ≤ q.2 ∧ q.2 < i64Max :=
        fun q hq => hb q (List.mem_cons_of_mem p hq)
      rw [List.map_cons]
      exact decodeEntries_cons decodeI64 p.1 _ _ p.2 rest (decodeI64_inRange p.2 hp) (ih hrest)

/-- C3: for every state and every non-empty path, `Save` writes the
marshalled document and `Load` of that document restores a state whose
`mail_max_uid` and `mbox_offsets` maps equal the original (values are
within their Go integer ranges by construction of the Go types). -/
theorem stateSave_stateLoad_roundtrip (s : State) (path : String)
    (hpath : path ≠ "")
    (hmm : ∀ p ∈ s.mailMax, p.2 < u32Bound)
    (hmo : ∀ p ∈ s.mboxOffsets, i64Min ≤ p.2 ∧ p.2 < i64Max) :
    stateSave s path = some (encodeState s) ∧ decodeState (encodeState s) = some s := by
  constructor
  · simp [stateSave, hpath]
  · simp [decodeState, encodeState, decodeMapField, alookup,
      decodeEntries_encode_u32 s.mailMax hmm, decodeEntries_encode_i64 s.mboxOffsets hmo]

/-- Witness for C3 at a concrete state and path. -/
theorem stateSave_stateLoad_roundtrip_witness :
    ("state.json" : String) ≠ "" ∧
    (stateSave ⟨[("INBOX", 12345)], [("mbox:/home/u/b.mbox|dst:Archive", 1048576)]⟩
        "state.json" =
      some (encodeState ⟨[("INBOX", 12345)], [("mbox:/home/u/b.mbox|dst:Archive", 1048576)]⟩) ∧
     decodeState (encodeState
        ⟨[("INBOX", 12345)], [("mbox:/home/u/b.mbox|dst:Archive", 1048576)]⟩) =
      some ⟨[("INBOX", 12345)], [("mbox:/home/u/b.mbox|dst:Archive", 1048576)]⟩) :=
  ⟨by decide,
   stateSave_stateLoad_roundtrip _ "state.json" (by decide)
     (by decide) (by decide)⟩

/-! ## IMAP `UID SEARCH` (`imaputil.SearchUIDsSince`)

`SearchUIDsSince` builds `imap.SearchCriteria`: `Since` is set when the
`since` time is non-zero, and for `minUID > 0` the UID criterion is
`AddRange(uint32(minUID+1), 4294967295)`.  `minUID` is a `uint32`, so
`minUID+1` is computed modulo `2^32`.  The server evaluates the range
per RFC 3501: a sequence number `0` on the wire is `*`, the largest UID
in the selected mailbox, and a range `a:b` matches independently of
order. -/

/-- A message on the source server: its UID and INTERNALDATE (times are
modelled as naturals, `0` being Go's zero time). -/
structure Msg where
  uid : Nat
  internalDate : Nat
deriving DecidableEq, Repr

/-- The search criteria `SearchUIDsSince` constructs. -/
structure SearchCriteria where
  since : Option Nat
  uidRange : Option (Nat × Nat)
deriving DecidableEq, Repr

/-- Criteria construction in `SearchUIDsSince` (the `uint32` cast of
`minUID+1` made explicit). -/
def searchUIDsSinceCriteria (since : Nat) (minUID : Nat) : SearchCriteria :=
  { since := if since ≠ 0 then some since else none
    uidRange := if minUID > 0 then some ((minUID + 1) % u32Bound, 4294967295) else none }

/-- The largest UID present in the mailbox (what `*` denotes). -/
def mailboxMaxUid (msgs : List Msg) : Nat :=
  (msgs.map Msg.uid).foldr max 0

/-- RFC 3501 sequence-number resolution: `0` on the wire denotes `*`. -/
def seqResolve (star : Nat) (n : Nat) : Nat :=
  if n = 0 then star else n

/-- RFC 3501 range membership: `a:b` matches everything between the two
resolved endpoints, in either order. -/
def seqRangeMatches (star : Nat) (r : Nat × Nat) (u : Nat) : Bool :=
  min (seqResolve star r.1) (seqResolve star r.2) ≤ u &&
    u ≤ max (seqResolve star r.1) (seqResolve star r.2)

/-- An unset SINCE criterion matches everything; a set one matches
messages whose INTERNALDATE is on or after it. -/
def sinceOk (since? : Option Nat) (date : Nat) : Bool :=
  match since? with
  | none => true
  | some t => decide (t ≤ date)

/-- An unset UID criterion matches everything; a set one matches per
`seqRangeMatches`. -/
def rangeOk (star : Nat) (r? : Option (Nat × Nat)) (u : Nat) : Bool :=
  match r? with
  | none => true
  | some r => seqRangeMatches star r u

/-- Server-side evaluation of `UID SEARCH` with the given criteria: UIDs
of the mailbox messages whose INTERNALDATE is on/after `since` (when
set) and whose UID falls in the range (when set). -/
def uidSearch (msgs : List Msg) (c : SearchCriteria) : List Nat :=
  (msgs.filter fun m =>
    sinceOk c.since m.internalDate &&
      rangeOk (mailboxMaxUid msgs) c.uidRange m.uid).map Msg.uid

/-- C4 counterexample: at `minUID = 4294967295` (a legal `uint32` value
greater than zero) the `uint32` increment overflows to `0`, the issued
range is `*:4294967295`, and a mailbox holding a message with UID
`4294967295` gets that UID — which is not greater than `minUID` — back
from the search. -/
theorem searchUIDsSince_not_all_gt_minUID :
    0 < 4294967295 ∧
    4294967295 ∈ uidSearch [⟨4294967295, 10⟩] (searchUIDsSinceCriteria 0 4294967295) ∧
    ¬ (∀ u ∈ uidSearch [⟨4294967295, 10⟩] (searchUIDsSinceCriteria 0 4294967295),
        4294967295 < u) := by
  refine ⟨by decide, by decide, fun h => absurd (h 4294967295 (by decide)) (by decide)⟩

/-- C4 amended: for every `minUID` with `0 < minUID` and
`minUID + 1 < 2^32` (i.e. every value except `0xFFFFFFFF`, where the
`uint32` increment wraps to `*`), every UID returned by the search is
strictly greater than `minUID`, over any mailbox contents and any
`since` value. -/
theorem searchUIDsSince_gt_minUID (since minUID : Nat) (msgs : List Msg) (u : Nat)
    (h0 : 0 < minUID) (h1 : minUID + 1 < u32Bound)
    (hu : u ∈ uidSearch msgs (searchUIDsSinceCriteria since minUID)) :
    minUID < u := by
  have h1' : minUID + 1 < 4294967296 := by
    have : u32Bound = 4294967296 := rfl
    omega
  unfold uidSearch at hu
  obtain ⟨m, hm, hmu⟩ := List.mem_map.mp hu
  have hfilter := (List.mem_filter.mp hm).2
  have hrange : (searchUIDsSinceCriteria since minUID).uidRange =
      some (minUID + 1, 4294967295) := by
    simp [searchUIDsSinceCriteria, h0, Nat.mod_eq_of_lt h1]
  rw [Bool.and_eq_true] at hfilter
  have h2 := hfilter.2
  rw [hrange] at h2
  have hne : ¬ (minUID + 1 = 0) := Nat.succ_ne_zero _
  simp only [rangeOk, seqRangeMatches, seqResolve, hne, if_false, Bool.and_eq_true,
    decide_eq_true_eq] at h2
  have hle : min (minUID + 1) 4294967295 ≤ m.uid := by
    have h4295 : ¬ ((4294967295 : Nat) = 0) := by decide
    simpa [h4295] using h2.1
  omega

/-- Witness for the amended C4 theorem: `minUID = 5`, a mailbox holding
UID 7 with date 3, `since = 2`; the search returns UID 7 and `5 < 7`. -/
theorem searchUIDsSince_gt_minUID_witness :
    0 < 5 ∧ 5 + 1 < u32Bound ∧
    7 ∈ uidSearch [⟨7, 3⟩] (searchUIDsSinceCriteria 2 5) ∧ 5 < 7 :=
  ⟨by decide, by decide, by decide,
   searchUIDsSince_gt_minUID 2 5 [⟨7, 3⟩] 7 (by decide) (by decide) (by decide)⟩

/-! ## Mailbox filter (`runCopyIMAP`)

The filter loop over LIST results: skip a name when the include regex
exists and does not match, when the exclude regex exists and matches, or
when the composed special-folders regex exists and matches; keep it
otherwise.  Compiled regexes are modelled as match predicates
`String → Bool`; a `nil` regex pointer is `none`. -/

/-- One iteration of the filter loop: `true` exactly when none of the
three `continue`s fires. -/
def keepMailbox (inc exc spc : Option (String → Bool)) (name : String) : Bool :=
  if (match inc with | some f => !(f name) | none => false) then false
  else if (match exc with | some f => f name | none => false) then false
  else if (match spc with | some f => f name | none => false) then false
  else true

/-- The filter loop itself: appends each kept name, in order. -/
def filterMailboxes (inc exc spc : Option (String → Bool)) : List String → List String
  | [] => []
  | b :: rest =>
      if keepMailbox inc exc spc b then b :: filterMailboxes inc exc spc rest
      else filterMailboxes inc exc spc rest

theorem mem_filterMailboxes (inc exc spc : Option (String → Bool)) (boxes : List String)
    (n : String) :
    n ∈ filterMailboxes inc exc spc boxes ↔
      n ∈ boxes ∧ keepMailbox inc exc spc n = true := by
  induction boxes with
  | nil => simp [filterMailboxes]
  | cons b rest ih =>
      simp only [filterMailboxes, List.mem_cons]
      by_cases hb : keepMailbox inc exc spc b = true
      · rw [if_pos hb]
        simp only [List.mem_cons, ih]
        constructor
        · rintro (rfl | ⟨h1, h2⟩)
          exacts [⟨Or.inl rfl, hb⟩, ⟨Or.inr h1, h2⟩]
        · rintro ⟨rfl | h1, h2⟩
          exacts [Or.inl rfl, Or.inr ⟨h1, h2⟩]
      · rw [if_neg hb, ih]
        constructor
        · rintro ⟨h1, h2⟩
          exact ⟨Or.inr h1, h2⟩
        · rintro ⟨rfl | h1, h2⟩
          exacts [absurd h2 hb, ⟨h1, h2⟩]

/-- C5: a name passes the mailbox filter iff the include regex is absent
or matches it, the exclude regex does not match it, and the composed
special-folders regex does not match it; and the filtered list consists
exactly of the listed names passing the predicate. -/
theorem keepMailbox_iff :
    (∀ (inc exc spc : Option (String → Bool)) (n : String),
      keepMailbox inc exc spc n = true ↔
        ((inc = none ∨ ∃ f, inc = some f ∧ f n = true) ∧
         (∀ f, exc = some f → f n = false) ∧
         (∀ f, spc = some f → f n = false))) ∧
    (∀ (inc exc spc : Option (String → Bool)) (boxes : List String) (n : String),
      n ∈ filterMailboxes inc exc spc boxes ↔
        n ∈ boxes ∧ keepMailbox inc exc spc n = true) := by
  refine ⟨fun inc exc spc n => ?_, mem_filterMailboxes⟩
  cases inc with
  | none =>
      cases exc with
      | none =>
          cases spc with
          | none => simp [keepMailbox]
          | some h => cases hh : h n <;> simp [keepMailbox, hh]
      | some g =>
          cases hg : g n with
          | false =>
              cases spc with
              | none => simp [keepMailbox, hg]
              | some h => cases hh : h n <;> simp [keepMailbox, hg, hh]
          | true => simp [keepMailbox, hg]
  | some f =>
      cases hf : f n with
      | false => simp [keepMailbox, hf]
      | true =>
          cases exc with
          | none =>
              cases spc with
              | none => simp [keepMailbox, hf]
              | some h => cases hh : h n <;> simp [keepMailbox, hf, hh]
          | some g =>
              cases hg : g n with
              | false =>
                  cases spc with
                  | none => simp [keepMailbox, hf, hg]
                  | some h => cases hh : h n <;> simp [keepMailbox, hf, hg, hh]
              | true => simp [keepMailbox, hf, hg]

/-! ## Sync engine (`syncer` package)

The per-mailbox worker `syncMailbox` and its helpers.  The two IMAP
connections are abstracted by a `SyncEnv` recording, for this worker's
run, the outcome of each remote operation: the result of
`EnsureDstMailbox`, of the read-only source `Select`, of the UID search
(as a function of the `minUID` the worker computes), the message stream
the `UidFetch` goroutine delivers, the error the fetch goroutine reports
on its done channel, and the outcome of each `appendToDst` call.  The
worker's denotation collects the APPENDs it issues, the final state, the
sequence of `emit` calls it makes, and its return value. -/

/-- `EventType` of `events.go`. -/
inductive EventType where
  | mailboxStart
  | mailboxProgress
  | mailboxDone
deriving DecidableEq, Repr

/-- `Event` of `events.go` (the unused `Err` field omitted: no emit in
the engine sets it). -/
structure Event where
  type : EventType
  mailbox : String
  total : Nat
  done : Nat
deriving DecidableEq, Repr

/-- `syncer.Options`. -/
structure Options where
  dryRun : Bool
  since : Nat
  concurrency : Nat
  quiet : Bool
  map : Option (List (String × String))
  ignoreState : Bool

/-- `MailboxSyncer.mapName`: the destination name for a source mailbox.
A `nil` map, a missing entry, or an entry mapping to the empty string
all leave the name unchanged. -/
def mapName (map? : Option (List (String × String))) (name : String) : String :=
  match map? with
  | none => name
  | some mp =>
      match alookup mp name with
      | some dst => if dst ≠ "" then dst else name
      | none => name

/-- A message delivered on the fetch channel: UID, INTERNALDATE, flags,
and the body literal (`none` models a `nil` `GetBody` result). -/
structure FetchedMsg where
  uid : Nat
  internalDate : Nat
  flags : List String
  body : Option String
deriving DecidableEq, Repr

/-- Environment of one `syncMailbox` run (outcomes of the remote calls;
`none` is a `nil` error). -/
structure SyncEnv where
  ensureErr : Option String
  selectSrcErr : Option String
  searchErr : Option String
  searchResult : Nat → List Nat
  messages : List FetchedMsg
  fetchErr : Option String
  appendErr : String → Nat → Option String

/-- Observable outcome of one `syncMailbox` run: APPENDs issued to the
destination (destination mailbox, UID), final state, the `emit` calls
made, and the returned error (`none` = nil). -/
structure SyncResult where
  appends : List (String × Nat)
  state : State
  events : List Event
  err : Option String
deriving DecidableEq, Repr

/-- The message-channel consumption loop of `syncMailbox`: skip `nil`
bodies; in dry-run count and emit progress without APPEND; otherwise
append (recording the issued APPEND), `SetMaxUID` on success, emit
progress; when the channel closes return the fetch goroutine's error if
it reported one, else emit `MailboxDone` and return nil. -/
def processMsgs (opts : Options) (env : SyncEnv) (name dstName : String) (total : Nat) :
    State → List Event → List (String × Nat) → Nat → List FetchedMsg → SyncResult
  | st, events, appends, _, [] =>
      match env.fetchErr with
      | some e => ⟨appends, st, events, some e⟩
      | none => ⟨appends, st, events ++ [⟨.mailboxDone, name, 0, 0⟩], none⟩
  | st, events, appends, done, msg :: rest =>
      match msg.body with
      | none => processMsgs opts env name dstName total st events appends done rest
      | some _ =>
          if opts.dryRun then
            processMsgs opts env name dstName total st
              (events ++ [⟨.mailboxProgress, name, total, done + 1⟩]) appends (done + 1) rest
          else
            match env.appendErr dstName msg.uid with
            | some e => ⟨appends ++ [(dstName, msg.uid)], st, events, some e⟩
            | none =>
                processMsgs opts env name dstName total (st.setMaxUID name msg.uid)
                  (events ++ [⟨.mailboxProgress, name, total, done + 1⟩])
                  (appends ++ [(dstName, msg.uid)]) (done + 1) rest

/-- `syncMailbox(ctx, name)` (the cancellation branch aside): emit
`MailboxStart`; unless dry-run, ensure the mapped destination mailbox;
select the source read-only; compute `minUID` (0 under `ignore_state`);
search; on an empty result return nil at once; otherwise emit the
initial progress event and consume the fetch stream. -/
def syncMailbox (opts : Options) (env : SyncEnv) (st : State) (name : String) : SyncResult :=
  let events := [⟨.mailboxStart, name, 0, 0⟩]
  match (if opts.dryRun then none else env.ensureErr) with
  | some e => ⟨[], st, events, some e⟩
  | none =>
      match env.selectSrcErr with
      | some e => ⟨[], st, events, some e⟩
      | none =>
          let minUID := if opts.ignoreState then 0 else st.getMaxUID name
          match env.searchErr with
          | some e => ⟨[], st, events, some e⟩
          | none =>
              let uids := env.searchResult minUID
              if uids.isEmpty then ⟨[], st, events, none⟩
              else
                processMsgs opts env name (mapName opts.map name) uids.length st
                  (events ++ [⟨.mailboxProgress, name, uids.length, 0⟩]) [] 0 env.messages

/-- A concrete worker configuration whose UID search comes back empty:
no dry-run, no remote errors, fresh state. -/
def emptySearchOpts : Options := ⟨false, 0, 1, true, none, false⟩

/-- Environment for the empty-search run: every remote call succeeds and
the search returns no UIDs. -/
def emptySearchEnv : SyncEnv := ⟨none, none, none, fun _ => [], [], none, fun _ _ => none⟩

/-- C1 counterexample: on an empty UID search the worker returns nil but
emits no `MailboxDone` event at all — its only emit is the initial
`MailboxStart` (the code logs and returns before the `MailboxDone`
emit that only happens when the message channel closes). -/
theorem syncMailbox_empty_search_no_done :
    (syncMailbox emptySearchOpts emptySearchEnv ⟨[], []⟩ "INBOX").err = none ∧
    EventType.mailboxDone ∉
      (syncMailbox emptySearchOpts emptySearchEnv ⟨[], []⟩ "INBOX").events.map Event.type := by
  decide

/-- C1 amended: whenever the run reaches the UID search without a remote
error and the search returns an empty result, `syncMailbox` returns nil,
issues no APPEND, leaves the state untouched, and emits only the
`MailboxStart` event — in particular no `MailboxDone`. -/
theorem syncMailbox_empty_search_returns_nil (opts : Options) (env : SyncEnv) (st : State)
    (name : String)
    (hens : env.ensureErr = none) (hsel : env.selectSrcErr = none)
    (hsearch : env.searchErr = none)
    (hempty : env.searchResult (if opts.ignoreState then 0 else st.getMaxUID name) = []) :
    syncMailbox opts env st name = ⟨[], st, [⟨.mailboxStart, name, 0, 0⟩], none⟩ := by
  unfold syncMailbox
  cases hdry : opts.dryRun <;> simp [hens, hsel, hsearch, hempty]

/-- Witness for the amended C1 theorem at the concrete empty-search run. -/
theorem syncMailbox_empty_search_returns_nil_witness :
    emptySearchEnv.ensureErr = none ∧ emptySearchEnv.selectSrcErr = none ∧
    emptySearchEnv.searchErr = none ∧
    emptySearchEnv.searchResult
      (if emptySearchOpts.ignoreState then 0 else State.getMaxUID ⟨[], []⟩ "Archive") = [] ∧
    syncMailbox emptySearchOpts emptySearchEnv ⟨[], []⟩ "Archive" =
      ⟨[], ⟨[], []⟩, [⟨.mailboxStart, "Archive", 0, 0⟩], none⟩ :=
  ⟨rfl, rfl, rfl, rfl,
   syncMailbox_empty_search_returns_nil emptySearchOpts emptySearchEnv ⟨[], []⟩ "Archive"
     rfl rfl rfl rfl⟩

/-- The `ok` test and nil-map test of `mapName`, as one lookup. -/
def mapLookup (map? : Option (List (String × String))) (name : String) : Option String :=
  match map? with
  | none => none
  | some mp => alookup mp name

/-- C10: the destination name is the mapped name exactly when the folder
map has an entry for the source name with a non-empty destination;
a missing entry, a `nil` map, or an entry whose destination is the empty
string leave the source name unchanged. -/
theorem mapName_spec (map? : Option (List (String × String))) (name dst : String) :
    (mapLookup map? name = some dst ∧ dst ≠ "" → mapName map? name = dst) ∧
    (mapLookup map? name = some "" → mapName map? name = name) ∧
    (mapLookup map? name = none → mapName map? name = name) := by
  cases map? with
  | none =>
      exact ⟨fun h => absurd h.1 (by simp [mapLookup]), fun h => by simp [mapLookup] at h,
        fun _ => rfl⟩
  | some mp =>
      cases hl : alookup mp name with
      | none =>
          refine ⟨fun h => ?_, fun h => ?_, fun _ => ?_⟩
          · rw [mapLookup, hl] at h
            exact absurd h.1 (by simp)
          · rw [mapLookup, hl] at h
            exact absurd h (by simp)
          · simp [mapName, hl]
      | some v =>
          refine ⟨fun h => ?_, fun h => ?_, fun h => ?_⟩
          · rw [mapLookup, hl] at h
            obtain ⟨hv, hne⟩ := h
            obtain rfl : v = dst := by simpa using hv
            simp [mapName, hl, hne]
          · rw [mapLookup, hl] at h
            obtain rfl : v = "" := by simpa using h
            simp [mapName, hl]
          · rw [mapLookup, hl] at h
            exact absurd h (by simp)

/-- Witness for C10: a map sending `"A"` to `"B"` and `"C"` to the empty
string; lookups for `"A"`, `"C"` and an unmapped `"X"`. -/
theorem mapName_spec_witness :
    (mapLookup (some [("A", "B"), ("C", "")]) "A" = some "B" ∧ ("B" : String) ≠ "") ∧
    mapName (some [("A", "B"), ("C", "")]) "A" = "B" ∧
    mapName (some [("A", "B"), ("C", "")]) "C" = "C" ∧
    mapName (some [("A", "B"), ("C", "")]) "X" = "X" :=
  ⟨⟨rfl, by decide⟩,
   (mapName_spec (some [("A", "B"), ("C", "")]) "A" "B").1 ⟨rfl, by decide⟩,
   (mapName_spec (some [("A", "B"), ("C", "")]) "C" "").2.1 rfl,
   (mapName_spec (some [("A", "B"), ("C", "")]) "X" "").2.2 rfl⟩

/-! ## Mbox copy pipeline (`runCopyMBOX`)

The appender goroutine of `runCopyMBOX`: stream messages out of the mbox
file, parse each message's `Date` header for the APPEND INTERNALDATE,
append, and checkpoint a byte offset.  A message is modelled by its
parsed header fields (`none` when `mail.ReadMessage` fails), paired with
the value `f.Seek(0, io.SeekCurrent)` returns after the reader has
consumed that message (with a buffered reader this is the position of
the underlying descriptor, not the logical message boundary).  Times are
naturals with `0` as Go's zero time; `mail.ParseDate` is an input
`String → Option Nat`; file offsets are `Int` (Go `int64`). -/

/-- A message streamed from the mbox file: its RFC 822 header fields, or
`none` when `mail.ReadMessage` fails on it. -/
structure MboxMsg where
  headers : Option (List (String × String))
deriving DecidableEq, Repr

/-- ASCII lower-casing of one character (header keys are ASCII). -/
def lowerChar (c : Char) : Char :=
  if 'A' ≤ c ∧ c ≤ 'Z' then Char.ofNat (c.toNat + 32) else c

/-- Case-insensitive (ASCII) string comparison, the effect of MIME
header-key canonicalization on lookups. -/
def eqFold (a b : String) : Bool :=
  a.data.map lowerChar = b.data.map lowerChar

/-- `Header.Get`: case-insensitive first match, empty string if absent. -/
def headerGet (hs : List (String × String)) (key : String) : String :=
  match hs.find? (fun p => eqFold p.1 key) with
  | some p => p.2
  | none => ""

/-- The INTERNALDATE computation of `runCopyMBOX`: parse the `Date`
header when the message's headers parsed and the header is non-empty;
any failure — and a parsed zero time — falls back directly to
`time.Now()`. -/
def messageDate (parse : String → Option Nat) (m : MboxMsg) (now : Nat) : Nat :=
  let d : Nat :=
    match m.headers with
    | none => 0
    | some hs =>
        match headerGet hs "Date" with
        | "" => 0
        | dh =>
            match parse dh with
            | some t => t
            | none => 0
  if d = 0 then now else d

/-- A date header's parse: absent or empty yields `none`. -/
def headerDate (parse : String → Option Nat) (hs : List (String × String))
    (key : String) : Option Nat :=
  match headerGet hs key with
  | "" => none
  | v => parse v

/-- The earliest time parsed from any `Received` header. -/
def earliestReceived (parse : String → Option Nat) (hs : List (String × String)) :
    Option Nat :=
  ((hs.filter fun p => eqFold p.1 "Received").filterMap fun p => parse p.2).min?

/-- Modelled from the spec: the documented INTERNALDATE fallback chain for
mbox messages (absent from `runCopyMBOX`, which only consults `Date`) —
`Date`, then `Resent-Date`, then `Delivery-date`, then the earliest time
parsed from any `Received` header, then the current wall-clock time. -/
def specFallbackDate (parse : String → Option Nat) (m : MboxMsg) (now : Nat) : Nat :=
  match m.headers with
  | none => now
  | some hs =>
      (headerDate parse hs "Date" <|> headerDate parse hs "Resent-Date" <|>
        headerDate parse hs "Delivery-date" <|> earliestReceived parse hs).getD now

/-- A message carrying only a parseable `Resent-Date` header. -/
def resentOnlyMsg : MboxMsg := ⟨some [("Resent-Date", "RD")]⟩

/-- A date parser that understands exactly the string `"RD"` (as time 5). -/
def parseOnlyRD : String → Option Nat := fun s => if s = "RD" then some 5 else none

/-- C7: on a message with no `Date` header but a parseable `Resent-Date`,
the code uses the current wall-clock time (99) as INTERNALDATE, while the
specified fallback chain would use the `Resent-Date` value (5): the
fallbacks are not tried. -/
theorem messageDate_skips_fallback_chain :
    messageDate parseOnlyRD resentOnlyMsg 99 = 99 ∧
    specFallbackDate parseOnlyRD resentOnlyMsg 99 = 5 ∧ (99 : Nat) ≠ 5 := by
  decide

/-- The composite resume key `"mbox:<abs-path>|dst:<destination>"`. -/
def mboxStateKey (absPath dstMbox : String) : String :=
  "mbox:" ++ absPath ++ "|dst:" ++ dstMbox

/-- Observable outcome of the mbox appender goroutine: the INTERNALDATEs
of the APPENDs it issued, the offsets stored after each successful
APPEND, the offset stored at EOF (`none` in dry-run), the final state,
the number of progress signals sent, and the error delivered on the
error channel (`none` = nil). -/
structure MboxResult where
  appends : List Nat
  appendOffsets : List Int
  finalOffset : Option Int
  state : State
  progress : Nat
  err : Option String
deriving DecidableEq, Repr

/-- The appender loop: for each message, `cur` is the file position
recorded before reading it and the message's paired position is what
`Tell` returns after it (hence `cur` for the next message); in dry-run
only progress is signalled; otherwise select+append (the outcomes of the
`idx`-th call given by the environment), and on success store
`max(cur, end)` under the key and persist; at EOF store the final
position unless dry-run. -/
def mboxLoop (dryRun : Bool) (parse : String → Option Nat) (now : Nat) (key : String)
    (selectErr appendErr : Nat → Option String) (eofPos : Int) :
    List (MboxMsg × Int) → Int → Nat → State → List Nat → List Int → Nat → MboxResult
  | [], _, _, st, appends, offs, prog =>
      if dryRun then ⟨appends, offs, none, st, prog, none⟩
      else ⟨appends, offs, some eofPos, st.setMboxOffset key eofPos, prog, none⟩
  | (msg, endP) :: rest, cur, idx, st, appends, offs, prog =>
      let date := messageDate parse msg now
      if dryRun then
        mboxLoop dryRun parse now key selectErr appendErr eofPos rest endP (idx + 1)
          st appends offs (prog + 1)
      else
        match selectErr idx with
        | some e => ⟨appends, offs, none, st, prog, some e⟩
        | none =>
            match appendErr idx with
            | some e => ⟨appends ++ [date], offs, none, st, prog, some e⟩
            | none =>
                let stored := if endP ≤ cur then cur else endP
                mboxLoop dryRun parse now key selectErr appendErr eofPos rest endP (idx + 1)
                  (st.setMboxOffset key stored) (appends ++ [date]) (offs ++ [stored])
                  (prog + 1)

/-- The file position the loop starts from: `0` under `ignore_state`,
otherwise the checkpointed offset for the resume key. -/
def mboxStartOffset (ignoreState : Bool) (absPath dstMbox : String) (st : State) : Int :=
  if ignoreState then 0 else st.getMboxOffset (mboxStateKey absPath dstMbox)

/-- `runCopyMBOX`'s appender, from the top: compute the resume key, seek
to the stored offset unless `ignore_state`, then run the loop from that
position. -/
def runMboxPipeline (dryRun ignoreState : Bool) (parse : String → Option Nat) (now : Nat)
    (absPath dstMbox : String) (selectErr appendErr : Nat → Option String) (eofPos : Int)
    (st : State) (msgs : List (MboxMsg × Int)) : MboxResult :=
  mboxLoop dryRun parse now (mboxStateKey absPath dstMbox) selectErr appendErr eofPos msgs
    (mboxStartOffset ignoreState absPath dstMbox st) 0 st [] [] 0

/-- The `max(cur, end)` checkpoint values along a run: for each message,
`max` of the position before reading it and the `Tell` after it, the
latter becoming the next message's "before" position. -/
def runningMaxOffsets (cur : Int) : List Int → List Int
  | [] => []
  | e :: rest => max cur e :: runningMaxOffsets e rest

theorem stored_eq_max (cur endP : Int) : (if endP ≤ cur then cur else endP) = max cur endP := by
  split <;> omega

theorem mboxLoop_run_appendOffsets (parse : String → Option Nat) (now : Nat) (key : String)
    (selectErr appendErr : Nat → Option String) (eofPos : Int)
    (hsel : ∀ i, selectErr i = none) (happ : ∀ i, appendErr i = none) :
    ∀ (msgs : List (MboxMsg × Int)) (cur : Int) (idx : Nat) (st : State)
      (appends : List Nat) (offs : List Int) (prog : Nat),
      (mboxLoop false parse now key selectErr appendErr eofPos msgs cur idx st appends offs
          prog).appendOffsets = offs ++ runningMaxOffsets cur (msgs.map Prod.snd) := by
  intro msgs
  induction msgs with
  | nil =>
      intro cur idx st appends offs prog
      simp [mboxLoop, runningMaxOffsets]
  | cons p rest ih =>
      intro cur idx st appends offs prog
      obtain ⟨msg, endP⟩ := p
      simp only [mboxLoop, hsel idx, happ idx, Bool.false_eq_true, if_false]
      rw [ih]
      simp [runningMaxOffsets, stored_eq_max]

theorem runningMaxOffsets_of_chain (ends : List Int) :
    ∀ cur : Int, List.Chain' (· ≤ ·) (cur :: ends) → runningMaxOffsets cur ends = ends := by
  induction ends with
  | nil => intro cur _; rfl
  | cons e rest ih =>
      intro cur h
      rw [List.chain'_cons] at h
      simp [runningMaxOffsets, max_eq_right h.1, ih e h.2]

/-- C8 amended: in a run of the mbox pipeline in which every
select/append succeeds, the offset stored after each successful APPEND
equals `max(cur, end)` — with `cur` the position recorded before reading
the message and `end` the `Tell` after the APPEND — and, since the
underlying file position never moves backwards (each `Tell` is at least
the previous one), the stored offsets are non-decreasing; they need not
strictly increase, because a buffered reader can leave `Tell` unchanged
across consecutive messages. -/
theorem mboxOffset_checkpoint_rule (ignoreState : Bool) (parse : String → Option Nat)
    (now : Nat) (absPath dstMbox : String) (selectErr appendErr : Nat → Option String)
    (eofPos : Int) (st : State) (msgs : List (MboxMsg × Int))
    (hsel : ∀ i, selectErr i = none) (happ : ∀ i, appendErr i = none) :
    (runMboxPipeline false ignoreState parse now absPath dstMbox selectErr appendErr eofPos
        st msgs).appendOffsets =
      runningMaxOffsets (mboxStartOffset ignoreState absPath dstMbox st)
        (msgs.map Prod.snd) ∧
    (List.Chain' (· ≤ ·)
        (mboxStartOffset ignoreState absPath dstMbox st :: msgs.map Prod.snd) →
      List.Chain' (· ≤ ·)
        (runMboxPipeline false ignoreState parse now absPath dstMbox selectErr appendErr
          eofPos st msgs).appendOffsets) := by
  have hmain : (runMboxPipeline false ignoreState parse now absPath dstMbox selectErr
      appendErr eofPos st msgs).appendOffsets =
      runningMaxOffsets (mboxStartOffset ignoreState absPath dstMbox st)
        (msgs.map Prod.snd) := by
    unfold runMboxPipeline
    rw [mboxLoop_run_appendOffsets parse now _ selectErr appendErr eofPos hsel happ]
    simp
  refine ⟨hmain, fun hchain => ?_⟩
  rw [hmain, runningMaxOffsets_of_chain _ _ hchain]
  exact hchain.tail

/-- Two streamed messages whose `Tell` positions are 2 and 5. -/
def advancingMsgs : List (MboxMsg × Int) := [(⟨none⟩, 2), (⟨none⟩, 5)]

/-- Witness for the amended C8 theorem: two messages with `Tell`
positions 2 and 5 from start 0; the stored offsets are `[2, 5]`. -/
theorem mboxOffset_checkpoint_rule_witness :
    (∀ i : Nat, (fun _ : Nat => (none : Option String)) i = none) ∧
    List.Chain' (· ≤ ·)
      (mboxStartOffset true "/a" "D" ⟨[], []⟩ :: advancingMsgs.map Prod.snd) ∧
    (runMboxPipeline false true (fun _ => none) 0 "/a" "D" (fun _ => none) (fun _ => none)
        5 ⟨[], []⟩ advancingMsgs).appendOffsets =
      runningMaxOffsets (mboxStartOffset true "/a" "D" ⟨[], []⟩)
        (advancingMsgs.map Prod.snd) ∧
    List.Chain' (· ≤ ·)
      (runMboxPipeline false true (fun _ => none) 0 "/a" "D" (fun _ => none) (fun _ => none)
        5 ⟨[], []⟩ advancingMsgs).appendOffsets := by
  have hchain : List.Chain' (· ≤ ·)
      (mboxStartOffset true "/a" "D" ⟨[], []⟩ :: advancingMsgs.map Prod.snd) := by
    simp [mboxStartOffset, advancingMsgs, List.chain'_cons]
  have h := mboxOffset_checkpoint_rule true (fun _ => none) 0 "/a" "D" (fun _ => none)
    (fun _ => none) 5 ⟨[], []⟩ advancingMsgs (fun _ => rfl) (fun _ => rfl)
  exact ⟨fun _ => rfl, hchain, h.1, h.2 hchain⟩

/-- Two streamed messages after which a buffered `Tell` reports the same
underlying position 4096. -/
def bufferedMsgs : List (MboxMsg × Int) := [(⟨none⟩, 4096), (⟨none⟩, 4096)]

/-- C8 counterexample: the reader's buffering can leave `Tell` at the
same value (4096) after two consecutive messages; the positions are
admissible (non-decreasing from start 0), both APPENDs succeed, yet the
two stored offsets are `[4096, 4096]` — not strictly increasing. -/
theorem mboxOffsets_not_strictly_increasing :
    List.Chain' (· ≤ ·) (mboxStartOffset true "/home/u/b.mbox" "Archive" ⟨[], []⟩ ::
      bufferedMsgs.map Prod.snd) ∧
    (runMboxPipeline false true (fun _ => none) 0 "/home/u/b.mbox" "Archive"
        (fun _ => none) (fun _ => none) 4096 ⟨[], []⟩ bufferedMsgs).appendOffsets =
      [4096, 4096] ∧
    ¬ List.Chain' (· < ·)
      ((runMboxPipeline false true (fun _ => none) 0 "/home/u/b.mbox" "Archive"
        (fun _ => none) (fun _ => none) 4096 ⟨[], []⟩ bufferedMsgs).appendOffsets) := by
  refine ⟨by simp [mboxStartOffset, bufferedMsgs, List.chain'_cons], rfl, fun h => ?_⟩
  rw [show (runMboxPipeline false true (fun _ => none) 0 "/home/u/b.mbox" "Archive"
      (fun _ => none) (fun _ => none) 4096 ⟨[], []⟩ bufferedMsgs).appendOffsets =
      [(4096 : Int), 4096] from rfl] at h
  exact absurd (List.chain'_cons.mp h).1 (lt_irrefl _)

/-! ## Dry-run (C6) -/

/-- A progress event? -/
def isProgress (e : Event) : Bool :=
  match e.type with
  | .mailboxProgress => true
  | _ => false

/-- A fetched message carrying a body literal? -/
def hasBody (m : FetchedMsg) : Bool :=
  m.body.isSome

theorem processMsgs_dryRun_frame (opts : Options) (env : SyncEnv) (name dstName : String)
    (total : Nat) (hdry : opts.dryRun = true) :
    ∀ (msgs : List FetchedMsg) (st : State) (events : List Event)
      (appends : List (String × Nat)) (done : Nat),
      (processMsgs opts env name dstName total st events appends done msgs).state = st ∧
      (processMsgs opts env name dstName total st events appends done msgs).appends =
        appends := by
  intro msgs
  induction msgs with
  | nil =>
      intro st events appends done
      cases hf : env.fetchErr <;> simp [processMsgs, hf]
  | cons msg rest ih =>
      intro st events appends done
      cases hb : msg.body with
      | none => simpa only [processMsgs, hb] using ih st events appends done
      | some b =>
          simp only [processMsgs, hb, hdry, if_true]
          exact ih st (events ++ [⟨.mailboxProgress, name, total, done + 1⟩]) appends (done + 1)

theorem processMsgs_dryRun_counts (opts : Options) (env : SyncEnv) (name dstName : String)
    (total : Nat) (hdry : opts.dryRun = true) (hfetch : env.fetchErr = none) :
    ∀ (msgs : List FetchedMsg) (st : State) (events : List Event)
      (appends : List (String × Nat)) (done : Nat),
      (processMsgs opts env name dstName total st events appends done msgs).err = none ∧
      (processMsgs opts env name dstName total st events appends done msgs).events.countP
          isProgress = events.countP isProgress + msgs.countP hasBody := by
  intro msgs
  induction msgs with
  | nil =>
      intro st events appends done
      refine ⟨by simp [processMsgs, hfetch], ?_⟩
      simp [processMsgs, hfetch, List.countP_append, List.countP_cons, isProgress,
        List.countP_nil]
  | cons msg rest ih =>
      intro st events appends done
      cases hb : msg.body with
      | none =>
          have h := ih st events appends done
          refine ⟨by simpa only [processMsgs, hb] using h.1, ?_⟩
          have h2 : (processMsgs opts env name dstName total st events appends done
              (msg :: rest)).events =
              (processMsgs opts env name dstName total st events appends done rest).events := by
            simp only [processMsgs, hb]
          rw [h2, h.2]
          simp [List.countP_cons, hasBody, hb]
      | some b =>
          have h := ih st (events ++ [⟨.mailboxProgress, name, total, done + 1⟩]) appends
            (done + 1)
          refine ⟨by simpa only [processMsgs, hb, hdry, if_true] using h.1, ?_⟩
          have h2 : (processMsgs opts env name dstName total st events appends done
              (msg :: rest)).events =
              (processMsgs opts env name dstName total st
                (events ++ [⟨.mailboxProgress, name, total, done + 1⟩]) appends (done + 1)
                rest).events := by
            simp only [processMsgs, hb, hdry, if_true]
          rw [h2, h.2]
          simp only [List.countP_append, List.countP_cons, List.countP_nil, isProgress,
            hasBody, hb, Option.isSome_some, if_true]
          omega

theorem syncMailbox_dryRun_frame (opts : Options) (env : SyncEnv) (st : State)
    (name : String) (hdry : opts.dryRun = true) :
    (syncMailbox opts env st name).appends = [] ∧
    (syncMailbox opts env st name).state = st := by
  unfold syncMailbox
  simp only [hdry, if_true]
  cases hsel : env.selectSrcErr with
  | some e => exact ⟨rfl, rfl⟩
  | none =>
      cases hsearch : env.searchErr with
      | some e => exact ⟨rfl, rfl⟩
      | none =>
          by_cases hempty :
            (env.searchResult (if opts.ignoreState then 0 else st.getMaxUID name)).isEmpty
          · simp [hempty]
          · simp only [hempty, if_false]
            have h := processMsgs_dryRun_frame opts env name (mapName opts.map name)
              (env.searchResult (if opts.ignoreState then 0 else st.getMaxUID name)).length
              hdry env.messages st
              ([⟨.mailboxStart, name, 0, 0⟩] ++
                [⟨.mailboxProgress, name,
                  (env.searchResult (if opts.ignoreState then 0 else
                    st.getMaxUID name)).length, 0⟩]) [] 0
            exact ⟨h.2, h.1⟩

theorem syncMailbox_dryRun_counts (opts : Options) (env : SyncEnv) (st : State)
    (name : String) (hdry : opts.dryRun = true) (hsel : env.selectSrcErr = none)
    (hsearch : env.searchErr = none) (hfetch : env.fetchErr = none)
    (hne : env.searchResult (if opts.ignoreState then 0 else st.getMaxUID name) ≠ []) :
    (syncMailbox opts env st name).err = none ∧
    (syncMailbox opts env st name).events.countP isProgress =
      1 + env.messages.countP hasBody := by
  unfold syncMailbox
  have hempty :
      (env.searchResult (if opts.ignoreState then 0 else st.getMaxUID name)).isEmpty =
      false := by
    cases hcase : env.searchResult (if opts.ignoreState then 0 else st.getMaxUID name) with
    | nil => exact absurd hcase hne
    | cons a l => rfl
  simp only [hdry, if_true, hsel, hsearch, hempty, Bool.false_eq_true, if_false]
  have h := processMsgs_dryRun_counts opts env name (mapName opts.map name)
    (env.searchResult (if opts.ignoreState then 0 else st.getMaxUID name)).length
    hdry hfetch env.messages st
    ([⟨.mailboxStart, name, 0, 0⟩] ++
      [⟨.mailboxProgress, name,
        (env.searchResult (if opts.ignoreState then 0 else st.getMaxUID name)).length,
        0⟩]) [] 0
  refine ⟨h.1, ?_⟩
  rw [h.2]
  simp [List.countP_append, List.countP_cons, isProgress]

theorem mboxLoop_dryRun (parse : String → Option Nat) (now : Nat) (key : String)
    (selectErr appendErr : Nat → Option String) (eofPos : Int) :
    ∀ (msgs : List (MboxMsg × Int)) (cur : Int) (idx : Nat) (st : State)
      (appends : List Nat) (offs : List Int) (prog : Nat),
      mboxLoop true parse now key selectErr appendErr eofPos msgs cur idx st appends offs
        prog = ⟨appends, offs, none, st, prog + msgs.length, none⟩ := by
  intro msgs
  induction msgs with
  | nil =>
      intro cur idx st appends offs prog
      simp [mboxLoop]
  | cons p rest ih =>
      intro cur idx st appends offs prog
      obtain ⟨msg, endP⟩ := p
      simp only [mboxLoop, if_true]
      rw [ih]
      have h : prog + 1 + rest.length = prog + (rest.length + 1) := by omega
      simp only [List.length_cons, h]

/-- C6: with `dry_run` set, (1) every `syncMailbox` run issues no APPEND
and leaves the state untouched; (2) a worker that reaches a non-empty
search with a clean fetch still returns nil and emits one progress event
per fetched message with a body, plus the initial one; (3) the mbox
pipeline issues no APPEND, stores no offset, leaves the state untouched,
and still signals progress once per streamed message. -/
theorem dryRun_no_append_no_state_mutation :
    (∀ (opts : Options) (env : SyncEnv) (st : State) (name : String),
      opts.dryRun = true →
        (syncMailbox opts env st name).appends = [] ∧
        (syncMailbox opts env st name).state = st) ∧
    (∀ (opts : Options) (env : SyncEnv) (st : State) (name : String),
      opts.dryRun = true → env.selectSrcErr = none → env.searchErr = none →
      env.fetchErr = none →
      env.searchResult (if opts.ignoreState then 0 else st.getMaxUID name) ≠ [] →
        (syncMailbox opts env st name).err = none ∧
        (syncMailbox opts env st name).events.countP isProgress =
          1 + env.messages.countP hasBody) ∧
    (∀ (ignoreState : Bool) (parse : String → Option Nat) (now : Nat)
      (absPath dstMbox : String) (selectErr appendErr : Nat → Option String)
      (eofPos : Int) (st : State) (msgs : List (MboxMsg × Int)),
      runMboxPipeline true ignoreState parse now absPath dstMbox selectErr appendErr
        eofPos st msgs = ⟨[], [], none, st, msgs.length, none⟩) := by
  refine ⟨syncMailbox_dryRun_frame, syncMailbox_dryRun_counts, ?_⟩
  intro ignoreState parse now absPath dstMbox selectErr appendErr eofPos st msgs
  unfold runMboxPipeline
  rw [mboxLoop_dryRun]
  simp

/-- Witness for C6: a dry-run worker over two fetched messages (one with
a body, one without) and a dry-run mbox pipeline over one message. -/
theorem dryRun_no_append_no_state_mutation_witness :
    (⟨true, 0, 2, true, none, false⟩ : Options).dryRun = true ∧
    (⟨none, none, none, fun _ => [1, 2], [⟨1, 5, [], some "b"⟩, ⟨2, 6, [], none⟩], none,
        fun _ _ => none⟩ : SyncEnv).searchResult
      (if (⟨true, 0, 2, true, none, false⟩ : Options).ignoreState then 0
       else State.getMaxUID ⟨[("INBOX", 7)], []⟩ "INBOX") ≠ [] ∧
    ((syncMailbox ⟨true, 0, 2, true, none, false⟩
        ⟨none, none, none, fun _ => [1, 2], [⟨1, 5, [], some "b"⟩, ⟨2, 6, [], none⟩], none,
          fun _ _ => none⟩ ⟨[("INBOX", 7)], []⟩ "INBOX").appends = [] ∧
     (syncMailbox ⟨true, 0, 2, true, none, false⟩
        ⟨none, none, none, fun _ => [1, 2], [⟨1, 5, [], some "b"⟩, ⟨2, 6, [], none⟩], none,
          fun _ _ => none⟩ ⟨[("INBOX", 7)], []⟩ "INBOX").state = ⟨[("INBOX", 7)], []⟩) ∧
    ((syncMailbox ⟨true, 0, 2, true, none, false⟩
        ⟨none, none, none, fun _ => [1, 2], [⟨1, 5, [], some "b"⟩, ⟨2, 6, [], none⟩], none,
          fun _ _ => none⟩ ⟨[("INBOX", 7)], []⟩ "INBOX").err = none ∧
     (syncMailbox ⟨true, 0, 2, true, none, false⟩
        ⟨none, none, none, fun _ => [1, 2], [⟨1, 5, [], some "b"⟩, ⟨2, 6, [], none⟩], none,
          fun _ _ => none⟩ ⟨[("INBOX", 7)], []⟩ "INBOX").events.countP isProgress =
       1 + ([⟨1, 5, [], some "b"⟩, ⟨2, 6, [], none⟩] : List FetchedMsg).countP hasBody) ∧
    runMboxPipeline true false (fun _ => none) 9 "/a" "D" (fun _ => none) (fun _ => none)
      77 ⟨[("INBOX", 7)], []⟩ [(⟨none⟩, 10)] =
      ⟨[], [], none, ⟨[("INBOX", 7)], []⟩, 1, none⟩ :=
  ⟨rfl, by decide,
   dryRun_no_append_no_state_mutation.1 _ _ ⟨[("INBOX", 7)], []⟩ "INBOX" rfl,
   dryRun_no_append_no_state_mutation.2.1 _ _ ⟨[("INBOX", 7)], []⟩ "INBOX" rfl rfl rfl rfl
     (by decide),
   dryRun_no_append_no_state_mutation.2.2 false (fun _ => none) 9 "/a" "D" (fun _ => none)
     (fun _ => none) 77 ⟨[("INBOX", 7)], []⟩ [(⟨none⟩, 10)]⟩

/-! ## Event bus (C9)

`emit` is `select { case m.events <- ev: default: }` on the channel
allocated with buffer 128: the send succeeds exactly when the buffer has
room, and otherwise the event is dropped — the producer never waits.
`SyncAll` closes the channel once, after `wg.Wait()` has joined every
worker, so on the channel the close comes after every worker emission. -/

/-- `MailboxSyncer.emit` acting on the buffered channel's queue. -/
def emitEvent (queue : List Event) (ev : Event) : List Event :=
  if queue.length < 128 then queue ++ [ev] else queue

/-- What the consumer observes on the event channel. -/
inductive BusAction where
  | ev (e : Event)
  | closeBus
deriving DecidableEq, Repr

/-- The channel-level trace of a `SyncAll` run: the workers' emissions,
in whatever interleaved order the scheduler produced them, followed by
the single `close(m.events)` executed after `wg.Wait()`. -/
def syncAllBusTrace (workerEvents : List Event) : List BusAction :=
  workerEvents.map BusAction.ev ++ [BusAction.closeBus]

theorem emitEvent_full (q : List Event) (e : Event) (h : 128 ≤ q.length) :
    emitEvent q e = q := by
  unfold emitEvent
  rw [if_neg (by omega)]

theorem emitEvent_room (q : List Event) (e : Event) (h : q.length < 128) :
    emitEvent q e = q ++ [e] := by
  unfold emitEvent
  rw [if_pos h]

theorem emitEvent_bounded (q : List Event) (e : Event) (h : q.length ≤ 128) :
    (emitEvent q e).length ≤ 128 := by
  unfold emitEvent
  split
  · simp only [List.length_append, List.length_cons, List.length_nil]
    omega
  · exact h

theorem foldl_emitEvent_bounded (evs : List Event) :
    ∀ q : List Event, q.length ≤ 128 → (evs.foldl emitEvent q).length ≤ 128 := by
  induction evs with
  | nil => intro q h; simpa
  | cons e rest ih =>
      intro q h
      exact ih (emitEvent q e) (emitEvent_bounded q e h)

theorem closeBus_not_mem_map (ws : List Event) :
    BusAction.closeBus ∉ ws.map BusAction.ev := by
  intro h
  obtain ⟨e, _, he⟩ := List.mem_map.mp h
  exact absurd he (by simp)

/-- C9: emitting on the bus never blocks the producer — `emit` is a
total step that, when the 128-slot buffer is full, drops the event and
leaves the queue unchanged, and otherwise enqueues it, so the queue
never outgrows its capacity — and the channel trace of any `SyncAll`
run carries exactly one close, positioned after every worker event. -/
theorem eventBus_lossy_and_closed_once :
    (∀ (q : List Event) (e : Event), 128 ≤ q.length → emitEvent q e = q) ∧
    (∀ (q : List Event) (e : Event), q.length < 128 → emitEvent q e = q ++ [e]) ∧
    (∀ (evs q : List Event), q.length ≤ 128 → (evs.foldl emitEvent q).length ≤ 128) ∧
    (∀ ws : List Event,
      (syncAllBusTrace ws).count BusAction.closeBus = 1 ∧
      (syncAllBusTrace ws).getLast? = some BusAction.closeBus) := by
  refine ⟨emitEvent_full, emitEvent_room, foldl_emitEvent_bounded, fun ws => ⟨?_, ?_⟩⟩
  · unfold syncAllBusTrace
    rw [List.count_append]
    rw [List.count_eq_zero.mpr (closeBus_not_mem_map ws)]
    simp
  · unfold syncAllBusTrace
    exact List.getLast?_concat _

/-- Witness for C9: a full queue of 128 start events drops a new event;
an empty queue accepts it; a one-event fold stays within capacity; the
trace of a one-event run closes once, at the end. -/
theorem eventBus_lossy_and_closed_once_witness :
    128 ≤ (List.replicate 128 (⟨.mailboxStart, "INBOX", 0, 0⟩ : Event)).length ∧
    emitEvent (List.replicate 128 ⟨.mailboxStart, "INBOX", 0, 0⟩)
        ⟨.mailboxProgress, "INBOX", 3, 1⟩ =
      List.replicate 128 ⟨.mailboxStart, "INBOX", 0, 0⟩ ∧
    ([] : List Event).length < 128 ∧
    emitEvent [] ⟨.mailboxProgress, "INBOX", 3, 1⟩ = [⟨.mailboxProgress, "INBOX", 3, 1⟩] ∧
    ([(⟨.mailboxProgress, "INBOX", 3, 1⟩ : Event)].foldl emitEvent []).length ≤ 128 ∧
    ((syncAllBusTrace [⟨.mailboxDone, "INBOX", 0, 0⟩]).count BusAction.closeBus = 1 ∧
      (syncAllBusTrace [⟨.mailboxDone, "INBOX", 0, 0⟩]).getLast? =
        some BusAction.closeBus) :=
  ⟨by simp,
   eventBus_lossy_and_closed_once.1 _ _ (by simp),
   by decide,
   eventBus_lossy_and_closed_once.2.1 _ _ (by decide),
   eventBus_lossy_and_closed_once.2.2.1 _ _ (by decide),
   eventBus_lossy_and_closed_once.2.2.2 _⟩

end Gomap
